import Mathlib

/-!
Formal model of diffpr.py, a CLI tool that downloads the before/after source
trees of a pull request and extracts each commit tarball into a destination
directory after stripping the archive's synthetic top-level wrapper directory.

Modelling conventions:
- Python member-path strings are lists of characters (PStr); Python's
  s.split("/"), s.startswith(p) and slicing s[n:] become splitSep,
  List.isPrefixOf and List.drop.
- The network and the tar parser are environment oracles (MetaR, TarR):
  an oracle value says whether urlopen raised, whether the bytes parsed as a
  gzip tar stream, and which members the archive holds.
- Side effects are recorded as an event trace (Ev): HTTP GETs, prints to
  stdout/stderr, directory removal/creation, member extraction, sys.exit.
- The filesystem is the pair of trees under output_dir/before and
  output_dir/after (FS); a tree is the ordered list of written members.
-/

/-- A Python string, modelled as its list of characters. -/
abbrev PStr := List Char

/-- Python s.split("/"): split on the separator character.
Empty input gives one empty field; a separator at either end gives an
empty field there, exactly as in Python. -/
def splitSep : PStr → List PStr
  | [] => [[]]
  | c :: rest =>
    if c = '/' then [] :: splitSep rest
    else
      match splitSep rest with
      | [] => [[c]]
      | s :: ss => (c :: s) :: ss

/-- One entry of the tar archive: the member path and its payload bytes. -/
structure TarMember where
  name : PStr
  content : String
deriving DecidableEq

/-- Path rewriting applied to one member name (diffpr.py lines 35-38): if the
name starts with the wrapper segment followed by a separator, both are
removed; otherwise the first pfx.length characters are removed
unconditionally, whatever they are. -/
def rewriteName (pfx name : PStr) : PStr :=
  if (pfx ++ ['/']).isPrefixOf name then name.drop (pfx.length + 1)
  else name.drop pfx.length

/-- The skip test of diffpr.py line 39: the rewritten name is empty, starts
with a separator, or has a parent-directory path segment. -/
def isSkipped (name : PStr) : Bool :=
  name == [] || ['/'].isPrefixOf name || (splitSep name).contains ['.', '.']

/-- The loop body applied to every member once the wrapper segment is fixed:
rewrite the name, drop the member when the skip test fires, extract the
rest in archive order. -/
def extractFiltered (pfx : PStr) (members : List TarMember) : List TarMember :=
  members.filterMap (fun m =>
    let n := rewriteName pfx m.name
    if isSkipped n then none else some ⟨n, m.content⟩)

/-- The extraction loop of download_and_extract (diffpr.py lines 30-41): the
wrapper segment is the first member's name up to the first separator, and
every member, the first included, is rewritten and filtered against it. -/
def extractList (members : List TarMember) : List TarMember :=
  match members with
  | [] => []
  | first :: _ => extractFiltered ((splitSep first.name).headD []) members

/-- Lexical resolution of path segments against an accumulated absolute
path: a parent segment pops one component, empty and current-directory
segments are no-ops, any other segment descends. This models how the
operating system resolves the path os.path.join(dest_dir, member.name)
that tar.extract writes (symbolic links are not modelled). -/
def resolveSegs : List PStr → List PStr → List PStr
  | acc, [] => acc
  | acc, s :: rest =>
    if s = ['.', '.'] then resolveSegs acc.dropLast rest
    else if s = [] ∨ s = ['.'] then resolveSegs acc rest
    else resolveSegs (acc ++ [s]) rest

/-- The resolved filesystem path written for an extracted member name: an
absolute member name ignores dest, as os.path.join does; any other name
resolves below dest. -/
def writtenPath (dest : List PStr) (name : PStr) : List PStr :=
  if ['/'].isPrefixOf name then resolveSegs [] (splitSep name)
  else resolveSegs dest (splitSep name)

/-- A directory tree: the members written into it, in write order
(a later entry with the same path overwrites an earlier one). -/
abbrev DirTree := List TarMember

/-- The two output subtrees; none means the directory does not exist. -/
structure FS where
  beforeTree : Option DirTree
  afterTree : Option DirTree
deriving DecidableEq

/-- Observable side effects of a run. -/
inductive Ev where
  | httpGet (url : String)
  | printOut (msg : String)
  | printErr (msg : String)
  | rmtreeEv (dir : String)
  | makedirsEv (dir : String)
  | extractEv (dir : String) (name : PStr)
  | exitEv (code : Nat)
deriving DecidableEq

/-- Oracle for one tarball request: the download raised, the bytes did not
parse as a gzip tar stream, or the archive holds the given members. -/
inductive TarR where
  | dlFail
  | openFail
  | archive (members : List TarMember)
deriving DecidableEq

/-- Oracle for the metadata request: fetch_json raised (network, HTTP or
JSON error), or it returned a parsed object whose base.sha / head.sha
fields are present or missing. -/
inductive MetaR where
  | fetchFail
  | fetched (base : Option String) (head : Option String)
deriving DecidableEq

/-- How a run of main ends: sys.exit(1) on bad arguments, an uncaught
exception, or normal completion. -/
inductive Outcome where
  | usageError
  | raised
  | finished
deriving DecidableEq

/-- Result of one download_and_extract call: its events, the state of the
destination tree afterwards, and whether the call returned normally. -/
structure StepOut where
  events : List Ev
  tree : Option DirTree
  ok : Bool
deriving DecidableEq

/-- Result of one run of main. -/
structure MainOut where
  events : List Ev
  fsOut : FS
  outcome : Outcome
deriving DecidableEq

/-- Fixed repository owner (diffpr.py line 52). -/
def owner : String := "kstost"

/-- Fixed repository name (diffpr.py line 53). -/
def repo : String := "cokacdir"

/-- The pull-request metadata URL (diffpr.py line 56). -/
def prUrl (pr : String) : String :=
  "https://api.github.com/repos/" ++ owner ++ "/" ++ repo ++ "/pulls/" ++ pr

/-- The tarball URL for one commit (diffpr.py lines 73-74). -/
def tarballUrl (sha : String) : String :=
  "https://api.github.com/repos/" ++ owner ++ "/" ++ repo ++ "/tarball/" ++ sha

/-- The usage message of diffpr.py line 46. -/
def usageMsg (argv : List String) : String :=
  "Usage: " ++ argv.headD "" ++ " <pr_number> <output_dir>"

/-- os.path.join(output_dir, "before"). -/
def beforeDir (outDir : String) : String := outDir ++ "/before"

/-- os.path.join(output_dir, "after"). -/
def afterDir (outDir : String) : String := outDir ++ "/after"

/-- Effect of the cleanup loop (diffpr.py lines 68-70) on one tree:
if the directory exists it is removed recursively, otherwise untouched. -/
def cleanStep (t : Option DirTree) : Option DirTree :=
  if t.isSome then none else t

/-- Events of the cleanup loop, before first, after second. -/
def cleanEvents (outDir : String) (fs : FS) : List Ev :=
  (if fs.beforeTree.isSome then [Ev.rmtreeEv (beforeDir outDir)] else [])
    ++ (if fs.afterTree.isSome then [Ev.rmtreeEv (afterDir outDir)] else [])

/-- download_and_extract (diffpr.py lines 19-41) against the tar oracle r,
with the destination tree t on entry. The code performs the HTTP GET
first; only when the download returns does os.makedirs run (exist_ok, so
an existing tree is kept); only when the bytes parse does the extraction
loop run, appending the surviving members. On failure the exception
propagates: ok is false and nothing is removed. -/
def download_and_extract (url dest : String) (r : TarR) (t : Option DirTree) : StepOut :=
  match r with
  | TarR.dlFail => ⟨[Ev.httpGet url], t, false⟩
  | TarR.openFail => ⟨[Ev.httpGet url, Ev.makedirsEv dest], some (t.getD []), false⟩
  | TarR.archive ms =>
    ⟨[Ev.httpGet url, Ev.makedirsEv dest]
        ++ (extractList ms).map (fun m => Ev.extractEv dest m.name),
      some (t.getD [] ++ extractList ms), true⟩

/-- main (diffpr.py lines 44-82) against the three oracles, starting from
filesystem fs. argv is sys.argv, program name included. Failures
short-circuit exactly where the corresponding Python exception would be
raised. -/
def mainRun (argv : List String) (meta : MetaR) (baseR headR : TarR) (fs : FS) : MainOut :=
  if argv.length ≠ 3 then
    ⟨[Ev.printOut (usageMsg argv), Ev.exitEv 1], fs, Outcome.usageError⟩
  else
    let pr := argv.getD 1 ""
    let outDir := argv.getD 2 ""
    let ev0 := [Ev.printOut ("Fetching PR #" ++ pr ++ " info..."), Ev.httpGet (prUrl pr)]
    match meta with
    | MetaR.fetchFail => ⟨ev0, fs, Outcome.raised⟩
    | MetaR.fetched none _ => ⟨ev0, fs, Outcome.raised⟩
    | MetaR.fetched (some _) none => ⟨ev0, fs, Outcome.raised⟩
    | MetaR.fetched (some bs) (some hs) =>
      let ev2 := ev0
        ++ [Ev.printOut ("Base SHA: " ++ bs.take 10 ++ "  Head SHA: " ++ hs.take 10)]
        ++ cleanEvents outDir fs
      let ev3 := ev2 ++ [Ev.printOut "Downloading before (base)..."]
      let stepB := download_and_extract (tarballUrl bs) (beforeDir outDir) baseR
        (cleanStep fs.beforeTree)
      if stepB.ok then
        let ev4 := ev3 ++ stepB.events ++ [Ev.printOut "Downloading after (head)..."]
        let stepA := download_and_extract (tarballUrl hs) (afterDir outDir) headR
          (cleanStep fs.afterTree)
        if stepA.ok then
          ⟨ev4 ++ stepA.events
              ++ [Ev.printOut ("Done. Files saved to " ++ beforeDir outDir
                  ++ "/ and " ++ afterDir outDir ++ "/")],
            ⟨stepB.tree, stepA.tree⟩, Outcome.finished⟩
        else ⟨ev4 ++ stepA.events, ⟨stepB.tree, stepA.tree⟩, Outcome.raised⟩
      else ⟨ev3 ++ stepB.events, ⟨stepB.tree, cleanStep fs.afterTree⟩, Outcome.raised⟩

/-- Whether any event of the list is a print to standard error. -/
def hasPrintErr (evs : List Ev) : Bool :=
  evs.any (fun e => match e with | Ev.printErr _ => true | _ => false)

/-- Whether any event of the list is an HTTP request. -/
def hasHttpGet (evs : List Ev) : Bool :=
  evs.any (fun e => match e with | Ev.httpGet _ => true | _ => false)

/-- How many events of the list are HTTP requests. -/
def countHttpGet (evs : List Ev) : Nat :=
  (evs.filter (fun e => match e with | Ev.httpGet _ => true | _ => false)).length

/-- The metadata step failed: fetch_json raised, or a sha field is absent
so the subscript on line 60 or 61 raises KeyError. -/
def metaFails : MetaR → Bool
  | MetaR.fetchFail => true
  | MetaR.fetched none _ => true
  | MetaR.fetched _ none => true
  | MetaR.fetched (some _) (some _) => false

/-- splitSep never returns an empty list of fields. -/
theorem splitSep_ne_nil (s : PStr) : splitSep s ≠ [] := by
  cases s with
  | nil => simp [splitSep]
  | cons c rest =>
    simp only [splitSep]
    split
    · simp
    · split <;> simp

/-- The first field of splitSep is the run of characters up to, not
including, the first separator. -/
theorem splitSep_headD (s : PStr) :
    (splitSep s).headD [] = s.takeWhile (fun c => c ≠ '/') := by
  induction s with
  | nil => simp [splitSep]
  | cons c rest ih =>
    by_cases hc : c = '/'
    · subst hc
      simp [splitSep]
    · cases h : splitSep rest with
      | nil => exact absurd h (splitSep_ne_nil rest)
      | cons a as =>
        rw [h] at ih
        simp only [List.headD_cons] at ih
        simp [splitSep, hc, h, List.takeWhile_cons, ih]

/-- Unfolding of the skip test into its three propositional clauses. -/
theorem isSkipped_eq_false_iff (n : PStr) :
    isSkipped n = false ↔ n ≠ [] ∧ ¬ (['/'] <+: n) ∧ ['.', '.'] ∉ splitSep n := by
  simp [isSkipped, List.contains, List.elem_iff, Bool.eq_false_iff,
    List.isPrefixOf_iff_prefix, and_assoc]

/-- Every member that the loop body extracts passed the skip test. -/
theorem mem_extractFiltered_not_skipped {pfx : PStr} {members : List TarMember}
    {m : TarMember} (hm : m ∈ extractFiltered pfx members) :
    isSkipped m.name = false := by
  simp only [extractFiltered, List.mem_filterMap] at hm
  obtain ⟨a, -, ha⟩ := hm
  by_cases h : isSkipped (rewriteName pfx a.name) = true
  · rw [if_pos h] at ha
    cases ha
  · rw [if_neg h] at ha
    injection ha with ha
    rw [← ha]
    simpa using h

/-- Every member that the extraction loop extracts passed the skip test. -/
theorem mem_extractList_not_skipped {members : List TarMember} {m : TarMember}
    (hm : m ∈ extractList members) : isSkipped m.name = false := by
  cases members with
  | nil => simp [extractList] at hm
  | cons f rest => exact mem_extractFiltered_not_skipped hm

/-- A member of the archive whose rewritten name passes the skip test is
extracted under that name. -/
theorem mem_extractFiltered_intro {pfx : PStr} {members : List TarMember}
    {m : TarMember} (hm : m ∈ members)
    (hsk : isSkipped (rewriteName pfx m.name) = false) :
    (⟨rewriteName pfx m.name, m.content⟩ : TarMember) ∈ extractFiltered pfx members := by
  simp only [extractFiltered, List.mem_filterMap]
  refine ⟨m, hm, ?_⟩
  simp [hsk]

/-- Membership introduction for the extraction loop. -/
theorem mem_extractList_intro {f : TarMember} {rest : List TarMember} {m : TarMember}
    (hm : m ∈ f :: rest)
    (hsk : isSkipped (rewriteName ((splitSep f.name).headD []) m.name) = false) :
    (⟨rewriteName ((splitSep f.name).headD []) m.name, m.content⟩ : TarMember)
      ∈ extractList (f :: rest) := by
  exact mem_extractFiltered_intro hm hsk

/-- Rewriting a name that is the wrapper segment, a separator and a tail
yields exactly the tail. -/
theorem rewriteName_strip (pfx tl : PStr) :
    rewriteName pfx (pfx ++ (['/'] ++ tl)) = tl := by
  have hpre : (pfx ++ ['/']) <+: pfx ++ (['/'] ++ tl) := by
    rw [← List.append_assoc]
    exact List.prefix_append _ _
  have hb : (pfx ++ ['/']).isPrefixOf (pfx ++ (['/'] ++ tl)) = true :=
    List.isPrefixOf_iff_prefix.mpr hpre
  have hlen : pfx.length + 1 = (pfx ++ ['/']).length := by simp
  simp only [rewriteName, hb, if_true]
  rw [hlen, ← List.append_assoc, List.drop_left]

/-- Lexical resolution of a traversal-free segment list only ever descends:
the accumulated path stays a prefix of the result. -/
theorem prefix_resolveSegs (acc : List PStr) (segs : List PStr)
    (h : ['.', '.'] ∉ segs) : acc <+: resolveSegs acc segs := by
  induction segs generalizing acc with
  | nil => simp [resolveSegs]
  | cons s rest ih =>
    rw [List.mem_cons, not_or] at h
    obtain ⟨h1, h2⟩ := h
    simp only [resolveSegs]
    rw [if_neg (fun hs => h1 hs.symm)]
    split
    · exact ih acc h2
    · exact List.IsPrefix.trans (List.prefix_append acc [s]) (ih (acc ++ [s]) h2)

/-- The cleanup step always leaves the directory absent. -/
theorem cleanStep_eq_none (t : Option DirTree) : cleanStep t = none := by
  cases t <;> rfl

/-- download_and_extract never removes anything. -/
theorem no_rmtree_in_step (url dest : String) (r : TarR) (t : Option DirTree) (d : String) :
    Ev.rmtreeEv d ∉ (download_and_extract url dest r t).events := by
  cases r <;> simp [download_and_extract]

/-- Claim C1: for every archive and every member of it, extraction never
writes outside the destination directory: each member that the extraction
loop of download_and_extract extracts resolves, under lexical path
resolution, to a path that still lies below dest (path-traversal members
having been dropped by the skip test). -/
theorem extract_stays_in_dest (dest : List PStr) (members : List TarMember)
    (m : TarMember) (hm : m ∈ extractList members) :
    dest <+: writtenPath dest m.name := by
  have hs := mem_extractList_not_skipped hm
  rw [isSkipped_eq_false_iff] at hs
  obtain ⟨-, habs, hdd⟩ := hs
  have habs2 : ¬ (['/'].isPrefixOf m.name = true) := by
    rw [List.isPrefixOf_iff_prefix]
    exact habs
  unfold writtenPath
  rw [if_neg habs2]
  exact prefix_resolveSegs dest (splitSep m.name) hdd

/-- Witness for C1: in an archive holding pkgname-aaaa111/README and the
traversal member pkgname-aaaa111/../../etc/passwd, only README survives,
and its written path stays below the destination. -/
theorem extract_stays_in_dest_witness :
    extractList [⟨"pkgname-aaaa111/README".toList, "readme-bytes"⟩,
        ⟨"pkgname-aaaa111/../../etc/passwd".toList, "pw"⟩]
      = [⟨"README".toList, "readme-bytes"⟩]
    ∧ ["out".toList] <+: writtenPath ["out".toList] "README".toList := by
  refine ⟨by decide, ?_⟩
  exact extract_stays_in_dest ["out".toList]
    [⟨"pkgname-aaaa111/README".toList, "readme-bytes"⟩,
      ⟨"pkgname-aaaa111/../../etc/passwd".toList, "pw"⟩]
    ⟨"README".toList, "readme-bytes"⟩ (by decide)

/-- Claim C2: a member of a non-empty archive is extracted at its rewritten
name if and only if that name is non-empty, does not start with a
separator, and has no parent-directory path segment; violating members are
skipped and never extracted (the loop raises no error for them, being a
total function). -/
theorem extracted_iff_safe (f m : TarMember) (rest : List TarMember)
    (pfx n : PStr) (hm : m ∈ f :: rest)
    (hp : pfx = (splitSep f.name).headD [])
    (hn : n = rewriteName pfx m.name) :
    (⟨n, m.content⟩ : TarMember) ∈ extractList (f :: rest)
      ↔ n ≠ [] ∧ ¬ (['/'] <+: n) ∧ ['.', '.'] ∉ splitSep n := by
  subst hp
  subst hn
  constructor
  · intro h
    have := mem_extractList_not_skipped h
    rw [isSkipped_eq_false_iff] at this
    exact this
  · intro h
    exact mem_extractList_intro hm ((isSkipped_eq_false_iff _).mpr h)

/-- Witness for C2: the member wrapper/a.txt of a two-member archive is
extracted as a.txt, while the traversal member wrapper/../x rewrites to
../x and both clauses of the iff evaluate accordingly. -/
theorem extracted_iff_safe_witness :
    ((⟨"a.txt".toList, "ok"⟩ : TarMember)
        ∈ extractList [⟨"wrapper/a.txt".toList, "ok"⟩, ⟨"wrapper/../x".toList, "evil"⟩]
      ↔ "a.txt".toList ≠ [] ∧ ¬ (['/'] <+: "a.txt".toList)
          ∧ ['.', '.'] ∉ splitSep "a.txt".toList)
    ∧ ¬ ((⟨"../x".toList, "evil"⟩ : TarMember)
        ∈ extractList [⟨"wrapper/a.txt".toList, "ok"⟩, ⟨"wrapper/../x".toList, "evil"⟩]) := by
  constructor
  · exact extracted_iff_safe ⟨"wrapper/a.txt".toList, "ok"⟩ ⟨"wrapper/a.txt".toList, "ok"⟩
      [⟨"wrapper/../x".toList, "evil"⟩] ("wrapper".toList) ("a.txt".toList)
      (by decide) (by decide) (by decide)
  · intro h
    have := (extracted_iff_safe ⟨"wrapper/a.txt".toList, "ok"⟩ ⟨"wrapper/../x".toList, "evil"⟩
      [⟨"wrapper/../x".toList, "evil"⟩] ("wrapper".toList) ("../x".toList)
      (by decide) (by decide) (by decide)).mp h
    exact absurd this (by decide)

/-- Claim C3: for a non-empty archive the wrapper segment is the first
member's name up to, not including, the first separator, and every
surviving member whose name is that segment, a separator and a tail is
extracted at exactly the tail. -/
theorem strip_top_level (f : TarMember) (rest : List TarMember) (pfx : PStr)
    (hp : pfx = (splitSep f.name).headD []) :
    pfx = f.name.takeWhile (fun c => c ≠ '/')
    ∧ ∀ m ∈ f :: rest, ∀ tl : PStr,
        m.name = pfx ++ (['/'] ++ tl) → isSkipped tl = false →
        (⟨tl, m.content⟩ : TarMember) ∈ extractList (f :: rest) := by
  constructor
  · rw [hp]
    exact splitSep_headD f.name
  · intro m hm tl hname hsk
    have hrw : rewriteName ((splitSep f.name).headD []) m.name = tl := by
      rw [← hp, hname]
      exact rewriteName_strip pfx tl
    have := mem_extractList_intro hm (by rw [hrw]; exact hsk)
    rw [hrw] at this
    exact this

/-- Witness for C3: the single-member archive abc123-repo/src/main.ext is
extracted at src/main.ext. -/
theorem strip_top_level_witness :
    "abc123-repo".toList
      = "abc123-repo/src/main.ext".toList.takeWhile (fun c => c ≠ '/')
    ∧ (⟨"src/main.ext".toList, "code"⟩ : TarMember)
        ∈ extractList [⟨"abc123-repo/src/main.ext".toList, "code"⟩] := by
  have h := strip_top_level ⟨"abc123-repo/src/main.ext".toList, "code"⟩ []
    ("abc123-repo".toList) (by decide)
  exact ⟨h.1, h.2 ⟨"abc123-repo/src/main.ext".toList, "code"⟩ (by decide)
    ("src/main.ext".toList) (by decide) (by decide)⟩

/-- Claim C9: a member whose name does not start with the wrapper segment
plus separator has its first pfx.length characters removed regardless of
what they are; it can still be extracted under the truncated name when
that name passes the skip test; a member whose name equals the wrapper
segment exactly rewrites to the empty name, and no extracted member ever
has an empty name. -/
theorem truncate_unrelated (f m : TarMember) (rest : List TarMember) (pfx : PStr)
    (hm : m ∈ f :: rest)
    (hp : pfx = (splitSep f.name).headD [])
    (h : (pfx ++ ['/']).isPrefixOf m.name = false) :
    rewriteName pfx m.name = m.name.drop pfx.length
    ∧ (isSkipped (m.name.drop pfx.length) = false →
        (⟨m.name.drop pfx.length, m.content⟩ : TarMember) ∈ extractList (f :: rest))
    ∧ (m.name = pfx → rewriteName pfx m.name = [])
    ∧ (∀ e ∈ extractList (f :: rest), e.name ≠ []) := by
  subst hp
  have hrw : rewriteName ((splitSep f.name).headD []) m.name
      = m.name.drop ((splitSep f.name).headD []).length := by
    unfold rewriteName
    rw [if_neg (by simp only [h]; exact Bool.false_ne_true)]
  refine ⟨hrw, ?_, ?_, ?_⟩
  · intro hsk
    have hmem := mem_extractList_intro hm (by rw [hrw]; exact hsk)
    rw [hrw] at hmem
    exact hmem
  · intro he
    rw [hrw, he, List.drop_length]
  · intro e he
    have := mem_extractList_not_skipped he
    rw [isSkipped_eq_false_iff] at this
    exact this.1

/-- Witness for C9: with first member pkg-abc/x, the member pkgother/file
does not carry the wrapper segment pkg-abc, yet it is extracted under the
truncated unrelated name r/file; and the name pkg-abc itself would rewrite
to the empty name. -/
theorem truncate_unrelated_witness :
    (⟨"r/file".toList, "d"⟩ : TarMember)
      ∈ extractList [⟨"pkg-abc/x".toList, "c"⟩, ⟨"pkgother/file".toList, "d"⟩]
    ∧ rewriteName "pkg-abc".toList "pkg-abc".toList = [] := by
  have h := truncate_unrelated ⟨"pkg-abc/x".toList, "c"⟩ ⟨"pkgother/file".toList, "d"⟩
    [⟨"pkgother/file".toList, "d"⟩] ("pkg-abc".toList) (by decide) (by decide) (by decide)
  have h2 := truncate_unrelated ⟨"pkg-abc/x".toList, "c"⟩ ⟨"pkg-abc".toList, "e"⟩
    [⟨"pkg-abc".toList, "e"⟩] ("pkg-abc".toList) (by decide) (by decide) (by decide)
  exact ⟨by have := h.2.1 (by decide); simpa using this, by simpa using h2.2.2.1 (by decide)⟩

/-- Claim C4: with both tarball fetches succeeding, a run leaves exactly the
two extracted trees, whatever was on disk before, because each pre-existing
subdirectory is removed before materialization; hence running twice from
the first run's final state reproduces that same state and no stale file
survives. -/
theorem rerun_same_tree (argv : List String) (bs hs : String)
    (bms hms : List TarMember) (fs : FS) (h3 : argv.length = 3) :
    (mainRun argv (MetaR.fetched (some bs) (some hs))
        (TarR.archive bms) (TarR.archive hms) fs).fsOut
      = ⟨some (extractList bms), some (extractList hms)⟩
    ∧ (mainRun argv (MetaR.fetched (some bs) (some hs)) (TarR.archive bms)
        (TarR.archive hms)
        ((mainRun argv (MetaR.fetched (some bs) (some hs)) (TarR.archive bms)
            (TarR.archive hms) fs).fsOut)).fsOut
      = (mainRun argv (MetaR.fetched (some bs) (some hs)) (TarR.archive bms)
          (TarR.archive hms) fs).fsOut := by
  have key : ∀ g : FS, (mainRun argv (MetaR.fetched (some bs) (some hs))
      (TarR.archive bms) (TarR.archive hms) g).fsOut
      = ⟨some (extractList bms), some (extractList hms)⟩ := by
    intro g
    simp [mainRun, h3, download_and_extract, cleanStep_eq_none]
  exact ⟨key fs, by rw [key, key]⟩

/-- Witness for C4: a run over a stale before tree ends with exactly the
freshly extracted trees, and a second run reproduces them. -/
theorem rerun_same_tree_witness :
    (mainRun ["diffpr.py", "7", "out"] (MetaR.fetched (some "aaaa") (some "bbbb"))
        (TarR.archive [⟨"w/f".toList, "new"⟩]) (TarR.archive [])
        ⟨some [⟨"stale".toList, "old"⟩], none⟩).fsOut
      = ⟨some (extractList [⟨"w/f".toList, "new"⟩]), some (extractList [])⟩
    ∧ (mainRun ["diffpr.py", "7", "out"] (MetaR.fetched (some "aaaa") (some "bbbb"))
        (TarR.archive [⟨"w/f".toList, "new"⟩]) (TarR.archive [])
        ((mainRun ["diffpr.py", "7", "out"] (MetaR.fetched (some "aaaa") (some "bbbb"))
            (TarR.archive [⟨"w/f".toList, "new"⟩]) (TarR.archive [])
            ⟨some [⟨"stale".toList, "old"⟩], none⟩).fsOut)).fsOut
      = (mainRun ["diffpr.py", "7", "out"] (MetaR.fetched (some "aaaa") (some "bbbb"))
          (TarR.archive [⟨"w/f".toList, "new"⟩]) (TarR.archive [])
          ⟨some [⟨"stale".toList, "old"⟩], none⟩).fsOut :=
  rerun_same_tree ["diffpr.py", "7", "out"] "aaaa" "bbbb"
    [⟨"w/f".toList, "new"⟩] [] ⟨some [⟨"stale".toList, "old"⟩], none⟩ (by decide)

/-- Counterexample to claim C5 as stated: with one positional argument the
usage message is printed to standard output, not standard error — the
whole trace is one stdout print and the exit, and holds no stderr print. -/
theorem usage_counterexample :
    (mainRun ["diffpr.py", "42"] MetaR.fetchFail TarR.dlFail TarR.dlFail
        ⟨none, none⟩).events
      = [Ev.printOut "Usage: diffpr.py <pr_number> <output_dir>", Ev.exitEv 1]
    ∧ hasPrintErr (mainRun ["diffpr.py", "42"] MetaR.fetchFail TarR.dlFail TarR.dlFail
        ⟨none, none⟩).events = false := by
  constructor <;> decide

/-- Claim C5 as amended: on any argument count other than two positionals
the program prints the usage message to standard output, exits with status
1, performs no HTTP request, and touches nothing on disk. -/
theorem usage_error_behavior (argv : List String) (meta : MetaR)
    (baseR headR : TarR) (fs : FS) (h : argv.length ≠ 3) :
    (mainRun argv meta baseR headR fs).events
      = [Ev.printOut (usageMsg argv), Ev.exitEv 1]
    ∧ hasHttpGet (mainRun argv meta baseR headR fs).events = false
    ∧ (mainRun argv meta baseR headR fs).outcome = Outcome.usageError
    ∧ (mainRun argv meta baseR headR fs).fsOut = fs := by
  simp [mainRun, h, hasHttpGet]

/-- Witness for C5 as amended, at the empty argument vector. -/
theorem usage_error_behavior_witness :
    (mainRun ["prog"] MetaR.fetchFail TarR.dlFail TarR.dlFail ⟨none, none⟩).events
      = [Ev.printOut (usageMsg ["prog"]), Ev.exitEv 1]
    ∧ hasHttpGet (mainRun ["prog"] MetaR.fetchFail TarR.dlFail TarR.dlFail
        ⟨none, none⟩).events = false
    ∧ (mainRun ["prog"] MetaR.fetchFail TarR.dlFail TarR.dlFail ⟨none, none⟩).outcome
      = Outcome.usageError
    ∧ (mainRun ["prog"] MetaR.fetchFail TarR.dlFail TarR.dlFail ⟨none, none⟩).fsOut
      = ⟨none, none⟩ :=
  usage_error_behavior ["prog"] MetaR.fetchFail TarR.dlFail TarR.dlFail
    ⟨none, none⟩ (by decide)

/-- Claim C6: when the metadata step fails — fetch_json raising on network,
HTTP or JSON errors, or a missing base.sha / head.sha field — the run ends
in a raised error after exactly one HTTP attempt, with no extraction, no
directory creation, and the filesystem untouched. -/
theorem metadata_failure_aborts (argv : List String) (meta : MetaR)
    (baseR headR : TarR) (fs : FS) (h3 : argv.length = 3)
    (hf : metaFails meta = true) :
    (mainRun argv meta baseR headR fs).outcome = Outcome.raised
    ∧ countHttpGet (mainRun argv meta baseR headR fs).events = 1
    ∧ (∀ d n, Ev.extractEv d n ∉ (mainRun argv meta baseR headR fs).events)
    ∧ (∀ d, Ev.makedirsEv d ∉ (mainRun argv meta baseR headR fs).events)
    ∧ (mainRun argv meta baseR headR fs).fsOut = fs := by
  cases meta with
  | fetchFail => simp [mainRun, h3, countHttpGet]
  | fetched ob oh =>
    cases ob with
    | none => simp [mainRun, h3, countHttpGet]
    | some b =>
      cases oh with
      | none => simp [mainRun, h3, countHttpGet]
      | some hh => simp [metaFails] at hf

/-- Witness for C6: a failed metadata fetch at a concrete input. -/
theorem metadata_failure_aborts_witness :
    (mainRun ["diffpr.py", "7", "out"] MetaR.fetchFail TarR.dlFail TarR.dlFail
        ⟨none, none⟩).outcome = Outcome.raised
    ∧ countHttpGet (mainRun ["diffpr.py", "7", "out"] MetaR.fetchFail TarR.dlFail
        TarR.dlFail ⟨none, none⟩).events = 1
    ∧ (∀ d n, Ev.extractEv d n ∉ (mainRun ["diffpr.py", "7", "out"] MetaR.fetchFail
        TarR.dlFail TarR.dlFail ⟨none, none⟩).events)
    ∧ (∀ d, Ev.makedirsEv d ∉ (mainRun ["diffpr.py", "7", "out"] MetaR.fetchFail
        TarR.dlFail TarR.dlFail ⟨none, none⟩).events)
    ∧ (mainRun ["diffpr.py", "7", "out"] MetaR.fetchFail TarR.dlFail TarR.dlFail
        ⟨none, none⟩).fsOut = ⟨none, none⟩ :=
  metadata_failure_aborts ["diffpr.py", "7", "out"] MetaR.fetchFail TarR.dlFail
    TarR.dlFail ⟨none, none⟩ (by decide) (by decide)

/-- Claim C7: when the tarball download raises, or the downloaded bytes do
not parse as a gzip tar stream, download_and_extract fails as a whole: it
returns abnormally, removes nothing, extracts nothing, and every file
already in the destination stays there — no rollback or partial cleanup. -/
theorem archive_failure_no_rollback (url dest : String) (r : TarR) (t : Option DirTree)
    (hr : r = TarR.dlFail ∨ r = TarR.openFail) :
    (download_and_extract url dest r t).ok = false
    ∧ (∀ d, Ev.rmtreeEv d ∉ (download_and_extract url dest r t).events)
    ∧ (∀ m, m ∈ t.getD [] → m ∈ (download_and_extract url dest r t).tree.getD [])
    ∧ (∀ d n, Ev.extractEv d n ∉ (download_and_extract url dest r t).events) := by
  rcases hr with h | h <;> subst h <;> simp [download_and_extract]

/-- Witness for C7: a malformed archive over a populated destination leaves
the existing file in place and extracts nothing. -/
theorem archive_failure_no_rollback_witness :
    (download_and_extract "u" "d" TarR.openFail (some [⟨"kept".toList, "k"⟩])).ok = false
    ∧ (∀ d, Ev.rmtreeEv d
        ∉ (download_and_extract "u" "d" TarR.openFail (some [⟨"kept".toList, "k"⟩])).events)
    ∧ (∀ m, m ∈ (some [(⟨"kept".toList, "k"⟩ : TarMember)] : Option DirTree).getD []
        → m ∈ (download_and_extract "u" "d" TarR.openFail
            (some [⟨"kept".toList, "k"⟩])).tree.getD [])
    ∧ (∀ d n, Ev.extractEv d n
        ∉ (download_and_extract "u" "d" TarR.openFail (some [⟨"kept".toList, "k"⟩])).events) :=
  archive_failure_no_rollback "u" "d" TarR.openFail (some [⟨"kept".toList, "k"⟩])
    (Or.inr rfl)

/-- Counterexample to claim C8 as stated: at a concrete successful call the
HTTP download event precedes the directory-creation event, so the
materializer does not ensure the destination directory first. -/
theorem download_before_makedirs_counterexample :
    (download_and_extract "u" "d" (TarR.archive []) none).events
      = [Ev.httpGet "u", Ev.makedirsEv "d"]
    ∧ List.indexOf (Ev.httpGet "u")
        (download_and_extract "u" "d" (TarR.archive []) none).events
      < List.indexOf (Ev.makedirsEv "d")
        (download_and_extract "u" "d" (TarR.archive []) none).events := by
  constructor <;> decide

/-- Claim C8 as amended: the materializer first downloads the whole archive
into memory and only then ensures the destination directory exists, with
no error and no loss of existing files when it is already present. -/
theorem download_then_makedirs (url dest : String) (r : TarR) (t : Option DirTree)
    (h : r ≠ TarR.dlFail) :
    ∃ rest : List Ev,
      (download_and_extract url dest r t).events
        = Ev.httpGet url :: Ev.makedirsEv dest :: rest
      ∧ ∀ m ∈ t.getD [], m ∈ (download_and_extract url dest r t).tree.getD [] := by
  cases r with
  | dlFail => exact absurd rfl h
  | openFail => exact ⟨[], rfl, fun m hm => by simpa [download_and_extract] using hm⟩
  | archive ms =>
    refine ⟨(extractList ms).map (fun e => Ev.extractEv dest e.name), ?_, ?_⟩
    · rfl
    intro m hm
    simp only [download_and_extract, Option.getD_some, List.mem_append]
    exact Or.inl hm

/-- Witness for C8 as amended: a malformed archive over an existing
destination still downloads first, then creates the directory. -/
theorem download_then_makedirs_witness :
    ∃ rest : List Ev,
      (download_and_extract "u" "d" TarR.openFail (some [⟨"old".toList, "o"⟩])).events
        = Ev.httpGet "u" :: Ev.makedirsEv "d" :: rest
      ∧ ∀ m ∈ (some [(⟨"old".toList, "o"⟩ : TarMember)] : Option DirTree).getD [],
          m ∈ (download_and_extract "u" "d" TarR.openFail
              (some [⟨"old".toList, "o"⟩])).tree.getD [] :=
  download_then_makedirs "u" "d" TarR.openFail (some [⟨"old".toList, "o"⟩]) (by decide)

/-- Claim C10: whenever the run reaches the download phase, its trace splits
into a cleanup phase followed by the download phase: the removals of the
before and after subdirectories, each emitted exactly when the directory
pre-exists, all lie in the cleanup phase, whose only HTTP request is the
metadata one; no removal occurs once the download phase starts; and a base
materialization that fails leaves no after tree at all behind. -/
theorem clean_before_downloads (argv : List String) (bs hs : String)
    (baseR headR : TarR) (fs : FS) (h3 : argv.length = 3) :
    ∃ rest : List Ev,
      (mainRun argv (MetaR.fetched (some bs) (some hs)) baseR headR fs).events
        = ([Ev.printOut ("Fetching PR #" ++ argv.getD 1 "" ++ " info..."),
            Ev.httpGet (prUrl (argv.getD 1 "")),
            Ev.printOut ("Base SHA: " ++ bs.take 10 ++ "  Head SHA: " ++ hs.take 10)]
            ++ cleanEvents (argv.getD 2 "") fs)
          ++ (Ev.printOut "Downloading before (base)..." :: rest)
      ∧ (∀ d, Ev.rmtreeEv d ∉ rest)
      ∧ (fs.beforeTree.isSome = true →
          Ev.rmtreeEv (beforeDir (argv.getD 2 "")) ∈ cleanEvents (argv.getD 2 "") fs)
      ∧ (fs.afterTree.isSome = true →
          Ev.rmtreeEv (afterDir (argv.getD 2 "")) ∈ cleanEvents (argv.getD 2 "") fs)
      ∧ (∀ u, Ev.httpGet u ∉ cleanEvents (argv.getD 2 "") fs)
      ∧ ((download_and_extract (tarballUrl bs) (beforeDir (argv.getD 2 "")) baseR
            (cleanStep fs.beforeTree)).ok = false →
          (mainRun argv (MetaR.fetched (some bs) (some hs)) baseR headR
              fs).fsOut.afterTree = none) := by
  have hclean1 : fs.beforeTree.isSome = true →
      Ev.rmtreeEv (beforeDir (argv.getD 2 "")) ∈ cleanEvents (argv.getD 2 "") fs := by
    intro hb
    simp [cleanEvents, hb]
  have hclean2 : fs.afterTree.isSome = true →
      Ev.rmtreeEv (afterDir (argv.getD 2 "")) ∈ cleanEvents (argv.getD 2 "") fs := by
    intro ha
    simp [cleanEvents, ha]
  have hclean3 : ∀ u, Ev.httpGet u ∉ cleanEvents (argv.getD 2 "") fs := by
    intro u
    cases hb : fs.beforeTree.isSome <;> cases ha : fs.afterTree.isSome <;>
      simp [cleanEvents, hb, ha]
  cases baseR with
  | dlFail =>
    refine ⟨[Ev.httpGet (tarballUrl bs)], ?_, ?_, hclean1, hclean2, hclean3, ?_⟩
    · simp [mainRun, h3, download_and_extract, List.append_assoc]
    · simp
    · intro hok
      simp [mainRun, h3, download_and_extract, cleanStep_eq_none]
  | openFail =>
    refine ⟨[Ev.httpGet (tarballUrl bs), Ev.makedirsEv (beforeDir (argv.getD 2 ""))],
      ?_, ?_, hclean1, hclean2, hclean3, ?_⟩
    · simp [mainRun, h3, download_and_extract, List.append_assoc]
    · simp
    · intro hok
      simp [mainRun, h3, download_and_extract, cleanStep_eq_none]
  | archive bms =>
    have hok : (download_and_extract (tarballUrl bs) (beforeDir (argv.getD 2 ""))
        (TarR.archive bms) (cleanStep fs.beforeTree)).ok = true := by
      simp [download_and_extract]
    cases headR with
    | dlFail =>
      refine ⟨([Ev.httpGet (tarballUrl bs), Ev.makedirsEv (beforeDir (argv.getD 2 ""))]
          ++ (extractList bms).map (fun e => Ev.extractEv (beforeDir (argv.getD 2 "")) e.name))
          ++ [Ev.printOut "Downloading after (head)...", Ev.httpGet (tarballUrl hs)],
        ?_, ?_, hclean1, hclean2, hclean3, ?_⟩
      · simp [mainRun, h3, download_and_extract, List.append_assoc]
      · intro d
        simp
      · intro hk
        rw [hok] at hk
        cases hk
    | openFail =>
      refine ⟨([Ev.httpGet (tarballUrl bs), Ev.makedirsEv (beforeDir (argv.getD 2 ""))]
          ++ (extractList bms).map (fun e => Ev.extractEv (beforeDir (argv.getD 2 "")) e.name))
          ++ [Ev.printOut "Downloading after (head)...", Ev.httpGet (tarballUrl hs),
              Ev.makedirsEv (afterDir (argv.getD 2 ""))],
        ?_, ?_, hclean1, hclean2, hclean3, ?_⟩
      · simp [mainRun, h3, download_and_extract, List.append_assoc]
      · intro d
        simp
      · intro hk
        rw [hok] at hk
        cases hk
    | archive hms =>
      refine ⟨([Ev.httpGet (tarballUrl bs), Ev.makedirsEv (beforeDir (argv.getD 2 ""))]
          ++ (extractList bms).map (fun e => Ev.extractEv (beforeDir (argv.getD 2 "")) e.name))
          ++ [Ev.printOut "Downloading after (head)..."]
          ++ ([Ev.httpGet (tarballUrl hs), Ev.makedirsEv (afterDir (argv.getD 2 ""))]
            ++ (extractList hms).map (fun e => Ev.extractEv (afterDir (argv.getD 2 "")) e.name))
          ++ [Ev.printOut ("Done. Files saved to " ++ beforeDir (argv.getD 2 "")
              ++ "/ and " ++ afterDir (argv.getD 2 "") ++ "/")],
        ?_, ?_, hclean1, hclean2, hclean3, ?_⟩
      · simp [mainRun, h3, download_and_extract, List.append_assoc]
      · intro d
        simp
      · intro hk
        rw [hok] at hk
        cases hk

/-- Witness for C10: a concrete run whose base download fails right after
the cleanup phase; both removals are in the cleanup phase and the final
state has no after tree. -/
theorem clean_before_downloads_witness :
    Ev.rmtreeEv (beforeDir "out") ∈ cleanEvents "out"
      ⟨some [⟨"s1".toList, "x"⟩], some [⟨"s2".toList, "y"⟩]⟩
    ∧ Ev.rmtreeEv (afterDir "out") ∈ cleanEvents "out"
      ⟨some [⟨"s1".toList, "x"⟩], some [⟨"s2".toList, "y"⟩]⟩
    ∧ (mainRun ["diffpr.py", "7", "out"] (MetaR.fetched (some "aaaa") (some "bbbb"))
        TarR.dlFail TarR.dlFail
        ⟨some [⟨"s1".toList, "x"⟩], some [⟨"s2".toList, "y"⟩]⟩).fsOut.afterTree = none := by
  obtain ⟨rest, -, -, hc1, hc2, -, h6⟩ := clean_before_downloads
    ["diffpr.py", "7", "out"] "aaaa" "bbbb" TarR.dlFail TarR.dlFail
    ⟨some [⟨"s1".toList, "x"⟩], some [⟨"s2".toList, "y"⟩]⟩ (by decide)
  exact ⟨hc1 (by decide), hc2 (by decide), h6 (by decide)⟩
